import Mathlib

/-
Verification of the dusky TTS daemon (dusky_main.py) against its design
specification.  Python strings are modelled as List Char, the regular
expressions of the text pipeline are translated into explicit scanning
functions with the exact left-to-right, leftmost-match semantics of re.sub
and re.split (including the negative lookbehinds of RE_SENTENCE_SPLIT),
and the stateful components (the MPV playback-session manager, the FIFO
deduplicator, the generate loop) become pure state-transition functions.
Timestamps (Python floats) are modelled as integers; sample buffers
(numpy arrays) as lists of integers; the bounded audio queue is modelled
as accepting every put (the blocking put with halt re-check is represented
by sampling the halt flag at each loop head).
-/

namespace Dusky

/-- Whitespace recognised by the ASCII part of the regex class backslash-s
and, on the inputs reachable in this program, by str.split and str.strip. -/
def isPyWhitespace (c : Char) : Bool :=
  c == ' ' || c == '\t' || c == '\n' || c == '\r' || c == Char.ofNat 11 || c == Char.ofNat 12

/-- Word characters of the regex class backslash-w (ASCII part), used by the
word-boundary assertions inside the lookbehinds of RE_SENTENCE_SPLIT. -/
def isWordChar (c : Char) : Bool :=
  c.isAlpha || c.isDigit || c == '_'

/-- Matcher for RE_MARKDOWN_LINK at one position: a bracketed label
(one or more characters other than a closing square bracket) followed by a
parenthesised target (one or more characters other than a closing
parenthesis).  Returns the label and the remaining input on success. -/
def mdMatch (rest : List Char) : Option (List Char × List Char) :=
  let label := rest.takeWhile (fun c => c != ']')
  let r1 := rest.dropWhile (fun c => c != ']')
  if label.isEmpty then none
  else
    match r1 with
    | ']' :: '(' :: r2 =>
      let url := r2.takeWhile (fun c => c != ')')
      let r3 := r2.dropWhile (fun c => c != ')')
      if url.isEmpty then none
      else
        match r3 with
        | ')' :: r4 => some (label, r4)
        | _ => none
    | _ => none

/-- Left-to-right non-overlapping substitution of RE_MARKDOWN_LINK by the
label group, as performed by RE_MARKDOWN_LINK.sub in clean_text.  The fuel
argument bounds the number of scanning steps; it is called with the input
length, which suffices since every step consumes at least one character. -/
def mdSubAux : Nat → List Char → List Char
  | 0, l => l
  | _, [] => []
  | fuel + 1, c :: rest =>
    if c == '[' then
      match mdMatch rest with
      | some (label, after) => label ++ mdSubAux fuel after
      | none => c :: mdSubAux fuel rest
    else c :: mdSubAux fuel rest

def mdSub (l : List Char) : List Char := mdSubAux l.length l

/-- Case-insensitive literal match: if the lower-cased input starts with the
given (lower-case) pattern, return the input after the pattern. -/
def ciStartsWith : List Char → List Char → Option (List Char)
  | [], l => some l
  | _ :: _, [] => none
  | p :: ps, c :: cs => if c.toLower == p then ciStartsWith ps cs else none

/-- Matcher for RE_URL at one position: an http or https scheme
(case-insensitive, the optional s tried greedily first) followed by one or
more non-whitespace characters.  Returns the input after the match. -/
def urlMatchAt (l : List Char) : Option (List Char) :=
  match ciStartsWith ("https://".data) l with
  | some r =>
    if (r.takeWhile (fun c => !isPyWhitespace c)).isEmpty then none
    else some (r.dropWhile (fun c => !isPyWhitespace c))
  | none =>
    match ciStartsWith ("http://".data) l with
    | some r =>
      if (r.takeWhile (fun c => !isPyWhitespace c)).isEmpty then none
      else some (r.dropWhile (fun c => !isPyWhitespace c))
    | none => none

/-- Left-to-right non-overlapping substitution of RE_URL by the literal
replacement Link, as performed by RE_URL.sub in clean_text. -/
def urlSubAux : Nat → List Char → List Char
  | 0, l => l
  | _, [] => []
  | fuel + 1, c :: rest =>
    match urlMatchAt (c :: rest) with
    | some r => "Link".data ++ urlSubAux fuel r
    | none => c :: urlSubAux fuel rest

def urlSub (l : List Char) : List Char := urlSubAux l.length l

/-- Allow-list of RE_CLEAN: ASCII letters, digits, regex whitespace and the
basic punctuation characters kept by clean_text. -/
def isAllowedChar (c : Char) : Bool :=
  c.isAlpha || c.isDigit || isPyWhitespace c ||
    c == '.' || c == ',' || c == '!' || c == '?' || c == ';' || c == ':' ||
    c == '\'' || c == '%' || c == '-'

/-- Substitution of RE_CLEAN: every character outside the allow-list is
replaced by a single space (each banned character is one match). -/
def reCleanSub (l : List Char) : List Char :=
  l.map (fun c => if isAllowedChar c then c else ' ')

/-- Whitespace split of str.split with no argument: maximal runs of
non-whitespace characters, discarding all whitespace. -/
def pySplitWsAux : Nat → List Char → List (List Char)
  | 0, l => if l.isEmpty then [] else [l]
  | fuel + 1, l =>
    let l1 := l.dropWhile isPyWhitespace
    if l1.isEmpty then []
    else
      (l1.takeWhile (fun c => !isPyWhitespace c)) ::
        pySplitWsAux fuel (l1.dropWhile (fun c => !isPyWhitespace c))

def pySplitWs (l : List Char) : List (List Char) := pySplitWsAux l.length l

/-- Separator join of str.join. -/
def pyJoin (sep : List Char) : List (List Char) → List Char
  | [] => []
  | [w] => w
  | w :: ws => w ++ sep ++ pyJoin sep ws

/-- Whitespace strip of str.strip with no argument. -/
def pyStrip (l : List Char) : List Char :=
  ((l.dropWhile isPyWhitespace).reverse.dropWhile isPyWhitespace).reverse

/-- Translation of clean_text: markdown links replaced by their label, bare
URLs replaced by Link, banned characters replaced by a space, and finally
whitespace collapsed by joining the whitespace-split words with single
spaces. -/
def clean_text (text : List Char) : List Char :=
  pyJoin [' '] (pySplitWs (reCleanSub (urlSub (mdSub text))))

/-- Abbreviation tokens protected by the lookbehinds of RE_SENTENCE_SPLIT. -/
def abbrevTokens : List (List Char) :=
  ["Mr".data, "Mrs".data, "Ms".data, "Dr".data, "Jr".data, "Sr".data,
   "Prof".data, "Vol".data, "No".data, "Vs".data, "Etc".data]

/-- Negative-lookbehind test of RE_SENTENCE_SPLIT at a position given by the
reversed prefix before it: the match attempt is blocked when the prefix ends
with an abbreviation token preceded by a word boundary. -/
def blockedAt (prevRev : List Char) : Bool :=
  abbrevTokens.any (fun a =>
    (prevRev.take a.length == a.reverse) &&
      (match prevRev.drop a.length with
       | [] => true
       | d :: _ => !isWordChar d))

/-- Sentence-terminal punctuation class of RE_SENTENCE_SPLIT. -/
def isSentencePunct (c : Char) : Bool :=
  c == '.' || c == '?' || c == '!' || c == ';' || c == ':'

/-- Match attempt of RE_SENTENCE_SPLIT at one position: unless blocked by a
lookbehind, optional whitespace, then one or more punctuation characters
(the capture group), then at least one whitespace character; all three runs
are maximal, which coincides with the greedy regex semantics because the
three character classes are pairwise disjoint.  Returns the consumed text,
the capture group and the remaining input. -/
def matchAt (prevRev rest : List Char) : Option (List Char × List Char × List Char) :=
  if blockedAt prevRev then none
  else if ((rest.dropWhile isPyWhitespace).takeWhile isSentencePunct).isEmpty then none
  else if (((rest.dropWhile isPyWhitespace).dropWhile isSentencePunct).takeWhile
      isPyWhitespace).isEmpty then none
  else some
    (rest.takeWhile isPyWhitespace
       ++ (rest.dropWhile isPyWhitespace).takeWhile isSentencePunct
       ++ ((rest.dropWhile isPyWhitespace).dropWhile isSentencePunct).takeWhile isPyWhitespace,
     (rest.dropWhile isPyWhitespace).takeWhile isSentencePunct,
     ((rest.dropWhile isPyWhitespace).dropWhile isSentencePunct).dropWhile isPyWhitespace)

/-- Scanner of RE_SENTENCE_SPLIT.split: leftmost matches, resuming after
each match; the pieces between matches alternate with the capture groups,
and a final piece closes the list.  Fuel is the remaining input length. -/
def reSplitAux : Nat → List Char → List Char → List Char → List (List Char)
  | 0, _, rest, cur => [cur.reverse ++ rest]
  | _ + 1, _, [], cur => [cur.reverse]
  | fuel + 1, prevRev, c :: cs, cur =>
    match matchAt prevRev (c :: cs) with
    | some (consumed, g, r3) =>
      cur.reverse :: g :: reSplitAux fuel (consumed.reverse ++ prevRev) r3 []
    | none => reSplitAux fuel (c :: prevRev) cs (c :: cur)

def reSplit (text : List Char) : List (List Char) :=
  reSplitAux text.length [] text []

/-- Pairing loop of smart_split: each piece is stripped and, when non-empty,
rejoined with its stripped punctuation group; with an odd chunk count the
stripped trailing piece is appended when non-empty. -/
def pairSentences : List (List Char) → List (List Char)
  | a :: b :: rest =>
    let s := pyStrip a
    let p := pyStrip b
    if s.isEmpty then pairSentences rest else (s ++ p) :: pairSentences rest
  | [a] =>
    let t := pyStrip a
    if t.isEmpty then [] else [t]
  | [] => []

/-- Translation of smart_split. -/
def smart_split (text : List Char) : List (List Char) :=
  if text.isEmpty then []
  else
    let chunks := reSplit text
    if chunks.length == 1 then
      if (pyStrip text).isEmpty then [] else [pyStrip text]
    else pairSentences chunks

/-- Character filter of generate_filename_slug (letters, digits and
whitespace survive; everything else is deleted). -/
def slugAllowed (c : Char) : Bool :=
  c.isAlpha || c.isDigit || isPyWhitespace c

/-- Translation of generate_filename_slug. -/
def generate_filename_slug (text : List Char) : List Char :=
  let cleaned := text.filter slugAllowed
  let words := pySplitWs cleaned
  if words.isEmpty then "audio".data
  else (pyJoin ['_'] (words.take 5)).map Char.toLower

/-- Test of str.isdigit for the ASCII digits relevant here: non-empty and
all digits. -/
def pyAllDigits (p : List Char) : Bool :=
  !p.isEmpty && p.all Char.isDigit

/-- Decimal value of a digit string, the int conversion applied to the
leading part of a file name. -/
def digitsToNat (p : List Char) : Nat :=
  p.foldl (fun n c => n * 10 + (c.toNat - 48)) 0

/-- Separator split of str.split with a one-character separator, keeping
empty parts, as used on file names with the underscore. -/
def pySplitSep (sep : Char) : List Char → List (List Char)
  | [] => [[]]
  | c :: rest =>
    if c == sep then [] :: pySplitSep sep rest
    else
      match pySplitSep sep rest with
      | w :: ws => (c :: w) :: ws
      | [] => [[c]]

/-- Loop body of get_next_index: for each file whose name starts with a
numeric part before the first underscore, keep the running maximum. -/
def getNextIndexLoop : List (List Char) → Nat → Nat
  | [], m => m
  | f :: fs, m =>
    match pySplitSep '_' f with
    | p :: _ =>
      if pyAllDigits p then
        getNextIndexLoop fs (if digitsToNat p > m then digitsToNat p else m)
      else getNextIndexLoop fs m
    | [] => getNextIndexLoop fs m

/-- Name filter of the glob pattern for WAV files. -/
def isWavName (f : List Char) : Bool :=
  List.isSuffixOf (".wav".data) f

/-- Translation of get_next_index; the directory is modelled as an optional
list of file names (none when the directory does not exist). -/
def getNextIndex (dir : Option (List (List Char))) : Nat :=
  match dir with
  | none => 1
  | some files => getNextIndexLoop (files.filter isWavName) 0 + 1

/-- Numeric index of a WAV file name as the specification describes it: the
value of the digit-only part before the first underscore, when present.
This definition follows the words of the spec and is compared with the
source translation getNextIndex. -/
def wavNumericIndex (f : List Char) : Option Nat :=
  match pySplitSep '_' f with
  | p :: _ => if pyAllDigits p then some (digitsToNat p) else none
  | [] => none

/-- Maximum numeric index among the existing WAV files, following the words
of the spec. -/
def specMaxWavIndex (files : List (List Char)) : Nat :=
  ((files.filter isWavName).filterMap wavNumericIndex).foldr max 0

/-- Decimal digit characters of a natural number, for the file-name
formatting. -/
def natToCharsAux : Nat → Nat → List Char
  | 0, _ => []
  | fuel + 1, n =>
    if n < 10 then [Char.ofNat (48 + n)]
    else natToCharsAux fuel (n / 10) ++ [Char.ofNat (48 + n % 10)]

def natToChars (n : Nat) : List Char := natToCharsAux (n + 1) n

/-
Playback session manager (AudioPlaybackThread).  An external player
process is modelled by its pid and liveness (poll returning the exit
status makes alive false); the manager state holds the tracked process
handle, the current stream id and the shared stop event.  Spawning is
modelled by an explicit parameter carrying the process the spawn would
produce, or none when spawning fails.
-/

structure Proc where
  pid : Nat
  alive : Bool
deriving DecidableEq

structure MpvState where
  mpvProcess : Option Proc
  currentStreamId : Option String
  stopEvent : Bool
deriving DecidableEq

/-- Liveness test performed on the tracked handle: a process is present and
its poll returns no exit status. -/
def procAlive : Option Proc → Bool
  | some p => p.alive
  | none => false

/-- Translation of AudioPlaybackThread._prepare_mpv_for_chunk.  Returns the
process handle handed back to the caller (none meaning halt), the new
manager state, and the processes terminated by the call. -/
def prepare_mpv_for_chunk (st : MpvState) (chunkStreamId : String)
    (spawnResult : Option Proc) : Option Proc × MpvState × List Proc :=
  if st.currentStreamId = some chunkStreamId then
    if procAlive st.mpvProcess then
      (st.mpvProcess, st, [])
    else
      (none, { st with mpvProcess := none, stopEvent := true }, [])
  else
    let killed := if procAlive st.mpvProcess then st.mpvProcess.toList else []
    match spawnResult with
    | some p =>
      (some p, { st with mpvProcess := some p, currentStreamId := some chunkStreamId }, killed)
    | none =>
      (none, { st with mpvProcess := none, currentStreamId := some chunkStreamId }, killed)

/-- Translation of the idle-housekeeping branch of AudioPlaybackThread.run:
when the queue poll times out, a tracked process whose poll reports an exit
status is dropped, and nothing else changes (in particular the current
stream id is kept). -/
def idle_housekeeping (st : MpvState) : MpvState :=
  match st.mpvProcess with
  | some p => if !p.alive then { st with mpvProcess := none } else st
  | none => st

/-
FIFO reader deduplication (FifoReader.run).  The hash function is a
parameter (the source uses an MD5 hex digest; identical texts always give
identical hashes, which is all the claims rely on), and timestamps are
modelled as integers.
-/

def DEDUP_WINDOW : Int := 2

structure FifoState where
  lastHash : Option (List Char)
  lastTime : Int
deriving DecidableEq

/-- Translation of the per-message body of FifoReader.run: strip the decoded
text, drop it when empty, drop it when its hash equals the previous hash and
the arrival lies within the dedup window of the previous acceptance, and
otherwise record hash and time and enqueue the text as a job. -/
def fifo_step (hash : List Char → List Char) (st : FifoState) (msg : List Char)
    (now : Int) : FifoState × Option (List Char) :=
  if (pyStrip msg).isEmpty then (st, none)
  else if st.lastHash = some (hash (pyStrip msg)) ∧ now - st.lastTime < DEDUP_WINDOW then
    (st, none)
  else ({ lastHash := some (hash (pyStrip msg)), lastTime := now }, some (pyStrip msg))

/-
Synthesis dispatch (DuskyDaemon.generate).  Sample buffers are lists of
integers; the synthesis engine is a parameter returning an optional buffer
and a sample rate; the halt flag is sampled at each loop head as a function
of the loop index; the bounded audio queue is modelled as accepting every
put, so the enqueued items are accumulated in order.
-/

def SAMPLE_RATE : Nat := 24000

inductive QItem where
  | chunk (audio : List Int) (sr : Nat) (streamId : String)
  | eos
deriving DecidableEq

/-- Sentence loop of generate: stop at the first loop head where the halt
flag is observed, skip sentences whose synthesis returns no buffer, and
otherwise accumulate the buffer, remember its sample rate and enqueue the
chunk tagged with the stream id.  Returns the accumulated buffers, the
final sample rate and the enqueued items. -/
def genLoop (synth : List Char → Option (List Int) × Nat) (sid : String)
    (halt : Nat → Bool) : List (List Char) → Nat → Nat →
    List (List Int) × Nat × List QItem
  | [], _, fsr => ([], fsr, [])
  | s :: rest, i, fsr =>
    if halt i then ([], fsr, [])
    else
      match synth s with
      | (none, _) => genLoop synth sid halt rest (i + 1) fsr
      | (some audio, sr) =>
        let r := genLoop synth sid halt rest (i + 1) sr
        (audio :: r.1, r.2.1, QItem.chunk audio sr sid :: r.2.2)

structure GenResult where
  allAudio : List (List Int)
  queued : List QItem
  saved : Option (List Char × List Int × Nat)
deriving DecidableEq

/-- Translation of DuskyDaemon.generate for one job: compute the slug,
split the text into sentences (aborting on none), take the next index from
the directory listing (the output directory was just created, so it
exists), run the sentence loop, enqueue the end-of-stream sentinel when any
buffer was produced, and in that case persist the in-order concatenation of
the buffers under the indexed and slugged WAV name. -/
def generate (synth : List Char → Option (List Int) × Nat) (sid : String)
    (halt : Nat → Bool) (dirFiles : List (List Char)) (text : List Char) : GenResult :=
  let slug := generate_filename_slug text
  let sentences := smart_split text
  if sentences.isEmpty then ⟨[], [], none⟩
  else
    let idx := getNextIndex (some dirFiles)
    let r := genLoop synth sid halt sentences 0 SAMPLE_RATE
    ⟨r.1,
     r.2.2 ++ (if r.1.isEmpty then [] else [QItem.eos]),
     if r.1.isEmpty then none
     else some (natToChars idx ++ "_".data ++ slug ++ ".wav".data, r.1.flatten, r.2.1)⟩

/-
Helper lemmas about the scanning primitives.
-/

theorem mem_of_mem_takeWhile {α : Type} {p : α → Bool} :
    ∀ {l : List α} {c : α}, c ∈ l.takeWhile p → c ∈ l := by
  intro l
  induction l with
  | nil => intro c h; simp at h
  | cons a t ih =>
    intro c h
    cases hp : p a with
    | true =>
      rw [List.takeWhile_cons, if_pos hp] at h
      rcases List.mem_cons.mp h with rfl | h
      · exact List.mem_cons_self _ _
      · exact List.mem_cons_of_mem _ (ih h)
    | false =>
      rw [List.takeWhile_cons, if_neg (by simp [hp])] at h
      simp at h

theorem mem_of_mem_dropWhile {α : Type} {p : α → Bool} :
    ∀ {l : List α} {c : α}, c ∈ l.dropWhile p → c ∈ l := by
  intro l
  induction l with
  | nil => intro c h; simp at h
  | cons a t ih =>
    intro c h
    cases hp : p a with
    | true =>
      rw [List.dropWhile_cons_of_pos hp] at h
      exact List.mem_cons_of_mem _ (ih h)
    | false =>
      rw [List.dropWhile_cons_of_neg (by simp [hp])] at h
      exact h

theorem mem_of_mem_pyStrip {l : List Char} {c : Char} (h : c ∈ pyStrip l) : c ∈ l := by
  unfold pyStrip at h
  rw [List.mem_reverse] at h
  have h1 := mem_of_mem_dropWhile h
  rw [List.mem_reverse] at h1
  exact mem_of_mem_dropWhile h1

theorem mem_reCleanSub_allowed {l : List Char} {c : Char}
    (h : c ∈ reCleanSub l) : isAllowedChar c = true := by
  unfold reCleanSub at h
  rcases List.mem_map.mp h with ⟨a, _, ha⟩
  by_cases hall : isAllowedChar a = true
  · rw [if_pos hall] at ha; rw [← ha]; exact hall
  · rw [if_neg hall] at ha; rw [← ha]; decide

theorem mem_pySplitWsAux_subset :
    ∀ (fuel : Nat) (l : List Char), ∀ w ∈ pySplitWsAux fuel l, ∀ c ∈ w, c ∈ l := by
  intro fuel
  induction fuel with
  | zero =>
    intro l w hw c hc
    unfold pySplitWsAux at hw
    by_cases he : l.isEmpty
    · rw [if_pos he] at hw; simp at hw
    · rw [if_neg he] at hw
      rcases List.mem_singleton.mp hw with rfl
      exact hc
  | succ fuel ih =>
    intro l w hw c hc
    unfold pySplitWsAux at hw
    by_cases he : (l.dropWhile isPyWhitespace).isEmpty
    · rw [if_pos he] at hw; simp at hw
    · rw [if_neg he] at hw
      rcases List.mem_cons.mp hw with rfl | hw
      · exact mem_of_mem_dropWhile (mem_of_mem_takeWhile hc)
      · exact mem_of_mem_dropWhile (mem_of_mem_dropWhile (ih _ _ hw _ hc))

theorem mem_pyJoin {sep : List Char} :
    ∀ (ws : List (List Char)) {c : Char}, c ∈ pyJoin sep ws →
      c ∈ sep ∨ ∃ w ∈ ws, c ∈ w := by
  intro ws
  induction ws with
  | nil => intro c h; simp [pyJoin] at h
  | cons w ws ih =>
    intro c h
    cases ws with
    | nil =>
      rw [pyJoin] at h
      exact Or.inr ⟨w, List.mem_singleton.mpr rfl, h⟩
    | cons w2 ws' =>
      have hrw : pyJoin sep (w :: w2 :: ws') = w ++ sep ++ pyJoin sep (w2 :: ws') := rfl
      rw [hrw] at h
      rcases List.mem_append.mp h with h | h
      · rcases List.mem_append.mp h with h | h
        · exact Or.inr ⟨w, List.mem_cons_self _ _, h⟩
        · exact Or.inl h
      · rcases ih h with h | ⟨u, hu, hc⟩
        · exact Or.inl h
        · exact Or.inr ⟨u, List.mem_cons_of_mem _ hu, hc⟩

theorem clean_text_allowed {t : List Char} {c : Char}
    (h : c ∈ clean_text t) : isAllowedChar c = true := by
  unfold clean_text at h
  rcases mem_pyJoin _ h with h | ⟨w, hw, hc⟩
  · rcases List.mem_singleton.mp h with rfl; decide
  · exact mem_reCleanSub_allowed (mem_pySplitWsAux_subset _ _ _ hw _ hc)

theorem matchAt_subset {prevRev rest consumed g r3 : List Char}
    (h : matchAt prevRev rest = some (consumed, g, r3)) :
    (∀ c ∈ g, c ∈ rest) ∧ (∀ c ∈ r3, c ∈ rest) := by
  unfold matchAt at h
  split at h
  · exact absurd h (by simp)
  · split at h
    · exact absurd h (by simp)
    · split at h
      · exact absurd h (by simp)
      · injection h with h
        injection h with h1 h
        injection h with h2 h3
        subst h2; subst h3
        constructor
        · intro c hc
          exact mem_of_mem_dropWhile (mem_of_mem_takeWhile hc)
        · intro c hc
          exact mem_of_mem_dropWhile
            (mem_of_mem_dropWhile (mem_of_mem_dropWhile hc))

theorem reSplitAux_subset :
    ∀ (fuel : Nat) (prevRev rest cur : List Char),
      ∀ s ∈ reSplitAux fuel prevRev rest cur, ∀ c ∈ s, c ∈ cur ∨ c ∈ rest := by
  intro fuel
  induction fuel with
  | zero =>
    intro prevRev rest cur s hs c hc
    unfold reSplitAux at hs
    rcases List.mem_singleton.mp hs with rfl
    rcases List.mem_append.mp hc with h | h
    · exact Or.inl (List.mem_reverse.mp h)
    · exact Or.inr h
  | succ fuel ih =>
    intro prevRev rest cur s hs c hc
    match rest with
    | [] =>
      unfold reSplitAux at hs
      rcases List.mem_singleton.mp hs with rfl
      exact Or.inl (List.mem_reverse.mp hc)
    | r :: rs =>
      rw [reSplitAux] at hs
      cases hm : matchAt prevRev (r :: rs) with
      | none =>
        rw [hm] at hs
        rcases ih _ _ _ _ hs _ hc with h | h
        · rcases List.mem_cons.mp h with rfl | h
          · exact Or.inr (List.mem_cons_self _ _)
          · exact Or.inl h
        · exact Or.inr (List.mem_cons_of_mem _ h)
      | some v =>
        rcases v with ⟨consumed, g, r3⟩
        rw [hm] at hs
        rcases List.mem_cons.mp hs with rfl | hs
        · exact Or.inl (List.mem_reverse.mp hc)
        · rcases List.mem_cons.mp hs with rfl | hs
          · exact Or.inr ((matchAt_subset hm).1 _ hc)
          · rcases ih _ _ _ _ hs _ hc with h | h
            · simp at h
            · exact Or.inr ((matchAt_subset hm).2 _ h)

theorem pairSentences_subset :
    ∀ (chunks : List (List Char)), ∀ s ∈ pairSentences chunks,
      ∀ c ∈ s, ∃ ch ∈ chunks, c ∈ ch
  | [] => by intro s hs; simp [pairSentences] at hs
  | [a] => by
    intro s hs c hc
    rw [pairSentences] at hs
    by_cases he : (pyStrip a).isEmpty
    · rw [if_pos he] at hs; simp at hs
    · rw [if_neg he] at hs
      rcases List.mem_singleton.mp hs with rfl
      exact ⟨a, List.mem_singleton.mpr rfl, mem_of_mem_pyStrip hc⟩
  | a :: b :: rest => by
    intro s hs c hc
    rw [pairSentences] at hs
    by_cases he : (pyStrip a).isEmpty
    · rw [if_pos he] at hs
      rcases pairSentences_subset rest s hs c hc with ⟨ch, hch, hc'⟩
      exact ⟨ch, List.mem_cons_of_mem _ (List.mem_cons_of_mem _ hch), hc'⟩
    · rw [if_neg he] at hs
      rcases List.mem_cons.mp hs with rfl | hs
      · rcases List.mem_append.mp hc with h | h
        · exact ⟨a, List.mem_cons_self _ _, mem_of_mem_pyStrip h⟩
        · exact ⟨b, List.mem_cons_of_mem _ (List.mem_cons_self _ _),
            mem_of_mem_pyStrip h⟩
      · rcases pairSentences_subset rest s hs c hc with ⟨ch, hch, hc'⟩
        exact ⟨ch, List.mem_cons_of_mem _ (List.mem_cons_of_mem _ hch), hc'⟩

theorem smart_split_subset {text s : List Char} {c : Char}
    (hs : s ∈ smart_split text) (hc : c ∈ s) : c ∈ text := by
  unfold smart_split at hs
  by_cases h0 : text.isEmpty
  · rw [if_pos h0] at hs; simp at hs
  · rw [if_neg h0] at hs
    by_cases h1 : (reSplit text).length == 1
    · rw [if_pos h1] at hs
      by_cases h2 : (pyStrip text).isEmpty
      · rw [if_pos h2] at hs; simp at hs
      · rw [if_neg h2] at hs
        rcases List.mem_singleton.mp hs with rfl
        exact mem_of_mem_pyStrip hc
    · rw [if_neg h1] at hs
      rcases pairSentences_subset _ _ hs _ hc with ⟨ch, hch, hc'⟩
      rcases reSplitAux_subset _ _ _ _ _ hch _ hc' with h | h
      · simp at h
      · exact h

/-- C2: every sentence returned by smart_split applied to clean_text
contains only characters of the RE_CLEAN allow-list (ASCII letters, digits,
whitespace and the basic punctuation characters); the raw banned characters
removed by clean_text never reach a sentence. -/
theorem dusky_c2 (t s : List Char) (c : Char)
    (hs : s ∈ smart_split (clean_text t)) (hc : c ∈ s) :
    isAllowedChar c = true :=
  clean_text_allowed (smart_split_subset hs hc)

/-- Witness for C2 at a concrete input containing a banned character. -/
theorem dusky_c2_witness :
    ("a b".data ∈ smart_split (clean_text "a@b".data) ∧ 'a' ∈ "a b".data) ∧
      isAllowedChar 'a' = true :=
  ⟨⟨by decide, by decide⟩, dusky_c2 "a@b".data "a b".data 'a' (by decide) (by decide)⟩

/-- Property of a prefix ending with one of the listed abbreviation tokens
at a word boundary: the prefix is some text followed by the token, and the
character before the token (when there is one) is not a word character. -/
def EndsWithAbbrevToken (pre : List Char) : Prop :=
  ∃ a ∈ abbrevTokens, ∃ q : List Char,
    pre = q ++ a ∧ (q = [] ∨ ∃ d qs, q = qs ++ [d] ∧ isWordChar d = false)

theorem blockedAt_of_endsWithAbbrev {pre : List Char}
    (h : EndsWithAbbrevToken pre) : blockedAt pre.reverse = true := by
  rcases h with ⟨a, ha, q, rfl, hq⟩
  unfold blockedAt
  rw [List.any_eq_true]
  refine ⟨a, ha, ?_⟩
  have hrev : (q ++ a).reverse = a.reverse ++ q.reverse := by
    rw [List.reverse_append]
  have htake : ((q ++ a).reverse).take a.length = a.reverse := by
    rw [hrev, ← List.length_reverse a, List.take_left]
  have hdrop : ((q ++ a).reverse).drop a.length = q.reverse := by
    rw [hrev, ← List.length_reverse a, List.drop_left]
  rw [Bool.and_eq_true, htake, hdrop]
  constructor
  · exact beq_self_eq_true _
  · rcases hq with rfl | ⟨d, qs, rfl, hd⟩
    · rfl
    · rw [List.reverse_append]
      simp [hd]

/-- C3: the sentence splitter never places a match start (a sentence
boundary) directly after one of the listed abbreviation tokens sitting at a
word boundary — the match attempt at such a position is rejected by the
lookbehinds — and in particular a title followed by a period does not end a
sentence. -/
theorem dusky_c3 :
    (∀ pre rest : List Char, EndsWithAbbrevToken pre →
      matchAt pre.reverse rest = none) ∧
    smart_split ("Dr. Smith arrived.".data) = [("Dr. Smith arrived.".data)] := by
  constructor
  · intro pre rest h
    unfold matchAt
    rw [if_pos (blockedAt_of_endsWithAbbrev h)]
  · decide

/-- Witness for C3 at a concrete prefix ending in an abbreviation token. -/
theorem dusky_c3_witness :
    EndsWithAbbrevToken ("xy Dr".data) ∧
      matchAt ("xy Dr".data).reverse (". Smith".data) = none :=
  ⟨⟨"Dr".data, by decide, "xy ".data, by decide, Or.inr ⟨' ', "xy".data, by decide, by decide⟩⟩,
   dusky_c3.1 "xy Dr".data ". Smith".data
     ⟨"Dr".data, by decide, "xy ".data, by decide, Or.inr ⟨' ', "xy".data, by decide, by decide⟩⟩⟩

/-
Claims about the playback session manager.
-/

/-- C1 counterexample: with session s current and its process dead, the
call returns halt and sets the stop event, but the current stream id is NOT
cleared — it stays s — contradicting the claim that both the process handle
and the current session id are cleared. -/
theorem dusky_c1_counterexample :
    ¬ ((prepare_mpv_for_chunk
        { mpvProcess := some { pid := 7, alive := false },
          currentStreamId := some "s", stopEvent := false } "s" none).2.1.currentStreamId
      = none) := by
  decide

/-- C1 amended: for every manager state in which session S is current and
the tracked player process is dead (or absent), the call for S returns
halt, clears the process handle, sets the global halt flag visible to the
dispatch loop, and leaves the current session id unchanged (still S). -/
theorem dusky_c1_amended (st : MpvState) (S : String) (spawn : Option Proc)
    (hs : st.currentStreamId = some S) (hd : procAlive st.mpvProcess = false) :
    prepare_mpv_for_chunk st S spawn
      = (none, { st with mpvProcess := none, stopEvent := true }, []) ∧
    (prepare_mpv_for_chunk st S spawn).2.1.currentStreamId = some S := by
  have h : prepare_mpv_for_chunk st S spawn
      = (none, { st with mpvProcess := none, stopEvent := true }, []) := by
    unfold prepare_mpv_for_chunk
    rw [hs, if_pos rfl, hd]
    simp
  exact ⟨h, by rw [h]; exact hs⟩

/-- Witness for the amended C1. -/
theorem dusky_c1_amended_witness :
    prepare_mpv_for_chunk
        { mpvProcess := some { pid := 7, alive := false },
          currentStreamId := some "s", stopEvent := false } "s" none
      = (none, { mpvProcess := none, currentStreamId := some "s", stopEvent := true }, []) ∧
    (prepare_mpv_for_chunk
        { mpvProcess := some { pid := 7, alive := false },
          currentStreamId := some "s", stopEvent := false } "s" none).2.1.currentStreamId
      = some "s" :=
  dusky_c1_amended
    { mpvProcess := some { pid := 7, alive := false },
      currentStreamId := some "s", stopEvent := false } "s" none rfl rfl

/-- C6: with session S current and its process alive, the call for S
returns that same process handle, changes nothing in the manager state and
terminates no process — idempotence in the steady state. -/
theorem dusky_c6 (st : MpvState) (p : Proc) (S : String) (spawn : Option Proc)
    (h1 : st.currentStreamId = some S) (h2 : st.mpvProcess = some p)
    (h3 : p.alive = true) :
    prepare_mpv_for_chunk st S spawn = (some p, st, []) := by
  unfold prepare_mpv_for_chunk
  rw [h1, if_pos rfl, h2]
  simp [procAlive, h3]

/-- Witness for C6. -/
theorem dusky_c6_witness :
    prepare_mpv_for_chunk
        { mpvProcess := some { pid := 7, alive := true },
          currentStreamId := some "s", stopEvent := false } "s"
        (some { pid := 9, alive := true })
      = (some { pid := 7, alive := true },
         { mpvProcess := some { pid := 7, alive := true },
           currentStreamId := some "s", stopEvent := false }, []) :=
  dusky_c6 _ { pid := 7, alive := true } "s" _ rfl rfl rfl

/-- C5: with session S current and its process alive, a call for a fresh
session T distinct from S terminates the old process, installs the newly
spawned process as current under T, and returns the new handle. -/
theorem dusky_c5 (st : MpvState) (p q : Proc) (S T : String)
    (h1 : st.currentStreamId = some S) (h2 : T ≠ S)
    (h3 : st.mpvProcess = some p) (h4 : p.alive = true) :
    prepare_mpv_for_chunk st T (some q)
      = (some q, { st with mpvProcess := some q, currentStreamId := some T }, [p]) := by
  unfold prepare_mpv_for_chunk
  rw [h1, if_neg (by simp [Ne.symm h2]), h3]
  simp [procAlive, h4, Option.toList]

/-- Witness for C5. -/
theorem dusky_c5_witness :
    prepare_mpv_for_chunk
        { mpvProcess := some { pid := 7, alive := true },
          currentStreamId := some "s", stopEvent := false } "t"
        (some { pid := 9, alive := true })
      = (some { pid := 9, alive := true },
         { mpvProcess := some { pid := 9, alive := true },
           currentStreamId := some "t", stopEvent := false },
         [{ pid := 7, alive := true }]) :=
  dusky_c5 _ { pid := 7, alive := true } { pid := 9, alive := true } "s" "t"
    rfl (by decide) rfl rfl

/-- C9: the idle-housekeeping step clears a dead tracked process handle,
keeps the current session id (and the stop event) unchanged, and as a
consequence the next chunk for that session takes the user-kill halt path —
returning halt with the stop event set and no process spawned or killed —
instead of silently spawning a fresh player. -/
theorem dusky_c9 (st : MpvState) (p : Proc) (S : String) (spawn : Option Proc)
    (hp : st.mpvProcess = some p) (hd : p.alive = false)
    (hs : st.currentStreamId = some S) :
    idle_housekeeping st = { st with mpvProcess := none } ∧
    (idle_housekeeping st).currentStreamId = st.currentStreamId ∧
    (idle_housekeeping st).stopEvent = st.stopEvent ∧
    prepare_mpv_for_chunk (idle_housekeeping st) S spawn
      = (none, { st with mpvProcess := none, stopEvent := true }, []) := by
  have h : idle_housekeeping st = { st with mpvProcess := none } := by
    unfold idle_housekeeping
    rw [hp]
    simp [hd]
  refine ⟨h, by rw [h], by rw [h], ?_⟩
  rw [h]
  unfold prepare_mpv_for_chunk
  simp only [hs, if_pos rfl]
  simp [procAlive]

/-- Witness for C9. -/
theorem dusky_c9_witness :
    idle_housekeeping
        { mpvProcess := some { pid := 7, alive := false },
          currentStreamId := some "s", stopEvent := false }
      = { mpvProcess := none, currentStreamId := some "s", stopEvent := false } ∧
    (idle_housekeeping
        { mpvProcess := some { pid := 7, alive := false },
          currentStreamId := some "s", stopEvent := false }).currentStreamId
      = some "s" ∧
    (idle_housekeeping
        { mpvProcess := some { pid := 7, alive := false },
          currentStreamId := some "s", stopEvent := false }).stopEvent = false ∧
    prepare_mpv_for_chunk
        (idle_housekeeping
          { mpvProcess := some { pid := 7, alive := false },
            currentStreamId := some "s", stopEvent := false }) "s"
        (some { pid := 9, alive := true })
      = (none, { mpvProcess := none, currentStreamId := some "s", stopEvent := true }, []) :=
  dusky_c9
    { mpvProcess := some { pid := 7, alive := false },
      currentStreamId := some "s", stopEvent := false }
    { pid := 7, alive := false } "s" (some { pid := 9, alive := true }) rfl rfl rfl

/-- C10: when spawning fails during a call for a fresh session T, the call
still records T as the current session with no tracked process and returns
halt while leaving the global halt flag untouched; the very next chunk of
session T then takes the dead-process halt path, which does set the flag. -/
theorem dusky_c10 (st : MpvState) (T : String) (spawn2 : Option Proc)
    (hT : st.currentStreamId ≠ some T) :
    (prepare_mpv_for_chunk st T none).1 = none ∧
    (prepare_mpv_for_chunk st T none).2.1.currentStreamId = some T ∧
    (prepare_mpv_for_chunk st T none).2.1.mpvProcess = none ∧
    (prepare_mpv_for_chunk st T none).2.1.stopEvent = st.stopEvent ∧
    (prepare_mpv_for_chunk (prepare_mpv_for_chunk st T none).2.1 T spawn2).1 = none ∧
    (prepare_mpv_for_chunk (prepare_mpv_for_chunk st T none).2.1 T spawn2).2.1.stopEvent
      = true := by
  have h1 : prepare_mpv_for_chunk st T none
      = (none, { st with mpvProcess := none, currentStreamId := some T },
         if procAlive st.mpvProcess then st.mpvProcess.toList else []) := by
    unfold prepare_mpv_for_chunk
    rw [if_neg hT]
  rw [h1]
  refine ⟨rfl, rfl, rfl, rfl, ?_, ?_⟩ <;>
  · unfold prepare_mpv_for_chunk
    simp [procAlive]

/-- Witness for C10. -/
theorem dusky_c10_witness :
    (prepare_mpv_for_chunk
        { mpvProcess := none, currentStreamId := none, stopEvent := false } "t" none).1
      = none ∧
    (prepare_mpv_for_chunk
        { mpvProcess := none, currentStreamId := none, stopEvent := false } "t"
        none).2.1.currentStreamId = some "t" ∧
    (prepare_mpv_for_chunk
        { mpvProcess := none, currentStreamId := none, stopEvent := false } "t"
        none).2.1.mpvProcess = none ∧
    (prepare_mpv_for_chunk
        { mpvProcess := none, currentStreamId := none, stopEvent := false } "t"
        none).2.1.stopEvent = false ∧
    (prepare_mpv_for_chunk
        (prepare_mpv_for_chunk
          { mpvProcess := none, currentStreamId := none, stopEvent := false } "t"
          none).2.1 "t" (some { pid := 9, alive := true })).1 = none ∧
    (prepare_mpv_for_chunk
        (prepare_mpv_for_chunk
          { mpvProcess := none, currentStreamId := none, stopEvent := false } "t"
          none).2.1 "t" (some { pid := 9, alive := true })).2.1.stopEvent = true :=
  dusky_c10 { mpvProcess := none, currentStreamId := none, stopEvent := false } "t"
    (some { pid := 9, alive := true }) (by decide)

/-
Claims about the FIFO deduplicator.
-/

/-- C7: once a message has been accepted (enqueued as a job) at time t1, a
second message with the same trimmed content is discarded when it arrives
within the dedup window of t1, and enqueued as a second job when it arrives
once the window has elapsed — so exactly one job, respectively two jobs,
result.  The hash function is arbitrary: identical trimmed texts always
hash identically. -/
theorem dusky_c7 (hash : List Char → List Char) (st0 : FifoState) (m : List Char)
    (t1 t2 : Int) (hacc : (fifo_step hash st0 m t1).2 = some (pyStrip m)) :
    (fifo_step hash st0 m t1).1
      = { lastHash := some (hash (pyStrip m)), lastTime := t1 } ∧
    (t2 - t1 < DEDUP_WINDOW →
      (fifo_step hash (fifo_step hash st0 m t1).1 m t2).2 = none) ∧
    (DEDUP_WINDOW ≤ t2 - t1 →
      (fifo_step hash (fifo_step hash st0 m t1).1 m t2).2 = some (pyStrip m)) := by
  by_cases he : (pyStrip m).isEmpty
  · rw [fifo_step, if_pos he] at hacc
    simp at hacc
  · by_cases hdup : st0.lastHash = some (hash (pyStrip m)) ∧ t1 - st0.lastTime < DEDUP_WINDOW
    · rw [fifo_step, if_neg he, if_pos hdup] at hacc
      simp at hacc
    · have h1 : (fifo_step hash st0 m t1).1
          = { lastHash := some (hash (pyStrip m)), lastTime := t1 } := by
        rw [fifo_step, if_neg he, if_neg hdup]
      refine ⟨h1, ?_, ?_⟩
      · intro hw
        rw [h1, fifo_step, if_neg he, if_pos ⟨rfl, hw⟩]
      · intro hw
        rw [h1, fifo_step, if_neg he,
          if_neg (fun hc => absurd hc.2 (not_lt.mpr hw))]

/-- Witness for C7 at concrete times inside and outside the window. -/
theorem dusky_c7_witness :
    (fifo_step (fun x => x) { lastHash := none, lastTime := 0 } (" hi ".data) 10).1
      = { lastHash := some ((fun x : List Char => x) (pyStrip (" hi ".data))), lastTime := 10 } ∧
    ((11 : Int) - 10 < DEDUP_WINDOW →
      (fifo_step (fun x => x)
        (fifo_step (fun x => x) { lastHash := none, lastTime := 0 } (" hi ".data) 10).1
        (" hi ".data) 11).2 = none) ∧
    (DEDUP_WINDOW ≤ (11 : Int) - 10 →
      (fifo_step (fun x => x)
        (fifo_step (fun x => x) { lastHash := none, lastTime := 0 } (" hi ".data) 10).1
        (" hi ".data) 11).2 = some (pyStrip (" hi ".data))) :=
  dusky_c7 (fun x => x) { lastHash := none, lastTime := 0 } (" hi ".data) 10 11 (by decide)

/-
Claims about the dispatch loop.
-/

theorem genLoop_halt_take (synth : List Char → Option (List Int) × Nat) (sid : String)
    (k : Nat) :
    ∀ (sents : List (List Char)) (i fsr : Nat), i ≤ k →
      genLoop synth sid (fun n => decide (k ≤ n)) sents i fsr
        = genLoop synth sid (fun _ => false) (sents.take (k - i)) i fsr := by
  intro sents
  induction sents with
  | nil => intro i fsr _; rw [List.take_nil]; rfl
  | cons s rest ih =>
    intro i fsr hik
    rcases Nat.eq_or_lt_of_le hik with rfl | hlt
    · rw [Nat.sub_self, List.take_zero]
      simp [genLoop]
    · have h0 : decide (k ≤ i) = false := by
        simp [Nat.not_le.mpr hlt]
      have htake : k - i = (k - (i + 1)) + 1 := by omega
      rw [htake, List.take_succ_cons]
      simp only [genLoop, h0, Bool.false_eq_true, if_false]
      cases hsy : synth s with
      | mk a sr =>
        cases a with
        | none => exact ih (i + 1) fsr hlt
        | some audio => dsimp only; rw [ih (i + 1) sr hlt]

/-- C4: when the halt flag becomes observable after the first k sentences
of a job (k below the sentence count), the run equals the un-halted run on
the first k sentences alone — no later sentence is synthesized or enqueued
— and the end-of-stream marker is still enqueued exactly when at least one
audio chunk was produced before the halt. -/
theorem dusky_c4 (synth : List Char → Option (List Int) × Nat) (sid : String)
    (dirFiles : List (List Char)) (text : List Char) (k : Nat)
    (hk : k < (smart_split text).length) :
    (generate synth sid (fun i => decide (k ≤ i)) dirFiles text).allAudio
      = (genLoop synth sid (fun _ => false) ((smart_split text).take k) 0 SAMPLE_RATE).1 ∧
    (generate synth sid (fun i => decide (k ≤ i)) dirFiles text).queued
      = (genLoop synth sid (fun _ => false) ((smart_split text).take k) 0 SAMPLE_RATE).2.2
        ++ (if ((genLoop synth sid (fun _ => false) ((smart_split text).take k) 0
              SAMPLE_RATE).1).isEmpty then [] else [QItem.eos]) := by
  have hne : (smart_split text).isEmpty = false := by
    cases h : smart_split text
    · rw [h] at hk; simp at hk
    · rfl
  have hloop := genLoop_halt_take synth sid k (smart_split text) 0 SAMPLE_RATE
    (Nat.zero_le k)
  rw [Nat.sub_zero] at hloop
  simp only [generate, hne, Bool.false_eq_true, if_false, hloop]
  trivial

/-- Witness for C4: halting after sentence 1 of 3. -/
theorem dusky_c4_witness :
    1 < (smart_split ("One. Two. Three.".data)).length ∧
    ((generate (fun _ => (some [3], 24000)) "sid" (fun i => decide (1 ≤ i)) []
        ("One. Two. Three.".data)).allAudio
      = (genLoop (fun _ => (some [3], 24000)) "sid" (fun _ => false)
          ((smart_split ("One. Two. Three.".data)).take 1) 0 SAMPLE_RATE).1 ∧
    (generate (fun _ => (some [3], 24000)) "sid" (fun i => decide (1 ≤ i)) []
        ("One. Two. Three.".data)).queued
      = (genLoop (fun _ => (some [3], 24000)) "sid" (fun _ => false)
          ((smart_split ("One. Two. Three.".data)).take 1) 0 SAMPLE_RATE).2.2
        ++ (if ((genLoop (fun _ => (some [3], 24000)) "sid" (fun _ => false)
              ((smart_split ("One. Two. Three.".data)).take 1) 0
              SAMPLE_RATE).1).isEmpty then [] else [QItem.eos])) :=
  ⟨by decide,
   dusky_c4 (fun _ => (some [3], 24000)) "sid" [] ("One. Two. Three.".data) 1 (by decide)⟩

theorem maxIf_eq (m d : Nat) : (if d > m then d else m) = max m d := by
  by_cases h : m < d
  · rw [if_pos h, Nat.max_eq_right (Nat.le_of_lt h)]
  · rw [if_neg h, Nat.max_eq_left (Nat.not_lt.mp h)]

theorem getNextIndexLoop_eq :
    ∀ (fs : List (List Char)) (m : Nat),
      getNextIndexLoop fs m = max m ((fs.filterMap wavNumericIndex).foldr max 0) := by
  intro fs
  induction fs with
  | nil => intro m; simp [getNextIndexLoop]
  | cons f fs ih =>
    intro m
    cases hp : pySplitSep '_' f with
    | nil =>
      simp only [getNextIndexLoop, hp, List.filterMap_cons, wavNumericIndex]
      exact ih m
    | cons p ps =>
      by_cases hd : pyAllDigits p = true
      · simp only [getNextIndexLoop, hp, hd, if_true, List.filterMap_cons,
          wavNumericIndex, maxIf_eq]
        rw [ih (max m (digitsToNat p))]
        simp only [List.foldr_cons]
        rw [max_assoc]
      · simp only [getNextIndexLoop, hp, hd, Bool.false_eq_true, if_false,
          List.filterMap_cons, wavNumericIndex]
        exact ih m

/-- C8: whenever a job produced at least one audio chunk, the persisted
file holds the in-order concatenation of all produced chunks, under the
name formed from the next index and the slug of the text, and that next
index is one greater than the maximum numeric index among the existing WAV
files of the output directory. -/
theorem dusky_c8 (synth : List Char → Option (List Int) × Nat) (sid : String)
    (halt : Nat → Bool) (dirFiles : List (List Char)) (text : List Char)
    (h : (generate synth sid halt dirFiles text).allAudio ≠ []) :
    (∃ sr, (generate synth sid halt dirFiles text).saved
      = some (natToChars (getNextIndex (some dirFiles)) ++ "_".data
            ++ generate_filename_slug text ++ ".wav".data,
          (generate synth sid halt dirFiles text).allAudio.flatten, sr)) ∧
    getNextIndex (some dirFiles) = specMaxWavIndex dirFiles + 1 := by
  constructor
  · by_cases hs : (smart_split text).isEmpty
    · exfalso
      apply h
      simp [generate, hs]
    · have hsf : (smart_split text).isEmpty = false := by
        cases hv : (smart_split text).isEmpty
        · rfl
        · exact absurd hv hs
      have h1 : (generate synth sid halt dirFiles text).allAudio
          = (genLoop synth sid halt (smart_split text) 0 SAMPLE_RATE).1 := by
        simp only [generate, hsf, Bool.false_eq_true, if_false]
      have hre : ((genLoop synth sid halt (smart_split text) 0 SAMPLE_RATE).1).isEmpty
          = false := by
        rw [h1] at h
        cases hv : (genLoop synth sid halt (smart_split text) 0 SAMPLE_RATE).1
        · rw [hv] at h; exact absurd rfl h
        · rfl
      refine ⟨(genLoop synth sid halt (smart_split text) 0 SAMPLE_RATE).2.1, ?_⟩
      rw [h1]
      simp only [generate, hsf, Bool.false_eq_true, if_false, hre]
  · rw [getNextIndex, specMaxWavIndex, getNextIndexLoop_eq]
    rw [Nat.zero_max]

/-- Witness for C8. -/
theorem dusky_c8_witness :
    (generate (fun _ => (some [1, 2], 24000)) "sid" (fun _ => false)
        ["3_old.wav".data] ("Hello world.".data)).allAudio ≠ [] ∧
    ((∃ sr, (generate (fun _ => (some [1, 2], 24000)) "sid" (fun _ => false)
        ["3_old.wav".data] ("Hello world.".data)).saved
      = some (natToChars (getNextIndex (some ["3_old.wav".data])) ++ "_".data
            ++ generate_filename_slug ("Hello world.".data) ++ ".wav".data,
          (generate (fun _ => (some [1, 2], 24000)) "sid" (fun _ => false)
            ["3_old.wav".data] ("Hello world.".data)).allAudio.flatten, sr)) ∧
    getNextIndex (some ["3_old.wav".data]) = specMaxWavIndex ["3_old.wav".data] + 1) :=
  ⟨by decide,
   dusky_c8 (fun _ => (some [1, 2], 24000)) "sid" (fun _ => false)
     ["3_old.wav".data] ("Hello world.".data) (by decide)⟩

end Dusky
